import Mathlib

/-!
Shallow embedding of the argos-badge-relay notification server
(src/argos-server.go) and proofs about its registry, renderer,
eviction pass, publisher write step and HTTP ingress handler.

Modelling conventions:
- Go `time.Time` / `time.Duration` are modelled as `Int` nanoseconds;
  `time.Since(t)` at current instant `now` is `now - t`.
- The Go registry map `map[appname]notification` is modelled by a snapshot
  association list `Registry`; the list order stands for the (arbitrary)
  iteration order of the Go map, and a well-formed registry has `Nodup` keys.
- Go string comparison (`sort.Strings`) is byte-lexicographic on UTF-8;
  for valid Unicode strings that coincides with codepoint-lexicographic
  order, embedded here as `charListLe` on `String.data`.
- File I/O outcomes of the publisher's write step are supplied as explicit
  `Option String` error parameters (none = the operation succeeded).
-/

namespace ArgosRelay

/-- Constant block of argos-server.go: the glyph used for a source that has
no entry in the icon map. -/
def unknownAppIcon : String := "·"

/-- Constant block of argos-server.go: the sentinel initial value of
`lastNotificationStatus`. -/
def impossibleNotificationStatus : String := "-"

/-- Go `type appname string`. -/
abbrev appname := String

/-- Go map `appDisplayIcons`, with Go map-lookup semantics: a missing key
yields the zero value `""`. -/
def appDisplayIcons (app : appname) : String :=
  if app = "mail.hobsons.com" then "σ"
  else if app = "hobsons.slack.com" then "@"
  else if app = "hangouts.google.com" then "π"
  else ""

/-- `notificationMaxLifetime = time.Minute * 30`, in nanoseconds
(`time.Minute` = 60 * 10^9 ns). -/
def notificationMaxLifetime : Int := 30 * 60 * 1000000000

/-- Go `type notification struct { label string; updatedAt time.Time }`. -/
structure notification where
  label : String
  updatedAt : Int
deriving DecidableEq, Repr

/-- A snapshot of the Go registry map `map[appname]notification`, in some
iteration order. -/
abbrev Registry := List (appname × notification)

/-- The fields of `ArgosNotificationServer` that the core logic touches
(the mutex is concurrency plumbing and has no sequential content). -/
structure ArgosNotificationServer where
  Host : String
  Port : Int
  ArgosHome : String
  lastNotificationStatus : String
  notifications : Registry
deriving DecidableEq, Repr

/-- Go method `(s *ArgosNotificationServer) init() error` (argos-server.go
lines 89-102): validates Port and ArgosHome, defaults Host, clears the
registry and plants the sentinel status. -/
def ArgosNotificationServer.serverInit (s : ArgosNotificationServer) :
    Except String ArgosNotificationServer :=
  if s.Port = 0 then .error "server port not set"
  else if s.ArgosHome = "" then .error "Argos home directory not set"
  else
    let s1 := if s.Host = "" then { s with Host := "localhost" } else s
    .ok { s1 with notifications := [], lastNotificationStatus := impossibleNotificationStatus }

/-- Go `notificationDisplay` (argos-server.go lines 208-221). `fmt.Sprint`
on two strings is plain concatenation. -/
def notificationDisplay (app : appname) (notifications : notification) : String :=
  if notifications.label = "" ∨ notifications.label = "0" then ""
  else
    let appIcon := appDisplayIcons app
    let appIcon := if appIcon = "" then unknownAppIcon else appIcon
    if notifications.label = "1" then appIcon
    else appIcon ++ notifications.label

/-- The loop body of `NotificationStatus` (argos-server.go lines 198-203):
collect the non-empty display fragments in iteration order. -/
def visibleNotifications (reg : Registry) : List String :=
  (reg.map (fun p => notificationDisplay p.1 p.2)).filter (fun d => d ≠ "")

/-- Codepoint-lexicographic comparison on character lists; on valid Unicode
data this is exactly the byte-lexicographic order Go's `sort.Strings` uses. -/
def charListLe : List Char → List Char → Bool
  | [], _ => true
  | _ :: _, [] => false
  | a :: as, b :: bs => if a < b then true else if b < a then false else charListLe as bs

/-- Go string order `a <= b` as used by `sort.Strings`. -/
def strLe (a b : String) : Bool := charListLe a.data b.data

/-- `sort.Strings(visibleNotifications)` (argos-server.go line 204): sort
ascending in Go string order. -/
def sortStrings (l : List String) : List String :=
  List.insertionSort (fun a b => strLe a b = true) l

/-- Go `strings.Join(elems, " ")` (argos-server.go line 205). -/
def joinSpace : List String → String
  | [] => ""
  | [a] => a
  | a :: rest => a ++ " " ++ joinSpace rest

/-- Go `NotificationStatus` (argos-server.go lines 194-206), as a function of
the registry snapshot. -/
def NotificationStatus (reg : Registry) : String :=
  joinSpace (sortStrings (visibleNotifications reg))

/-- Go `updateArgosStatus` (argos-server.go lines 137-145): map assignment
`s.notifications[app] = {label, now}`, i.e. remove any entry with that key
and add the fresh record. -/
def updateArgosStatus (reg : Registry) (app : appname) (notifications : String)
    (now : Int) : Registry :=
  reg.filter (fun p => p.1 ≠ app) ++ [(app, { label := notifications, updatedAt := now })]

/-- Go `pruneStaleNotifications` (argos-server.go lines 223-237): collect the
keys whose records are stale (`time.Since(updatedAt) > notificationMaxLifetime`),
then delete those keys from the map. -/
def pruneStaleNotifications (reg : Registry) (now : Int) : Registry :=
  let defunctApps :=
    (reg.filter (fun p => now - p.2.updatedAt > notificationMaxLifetime)).map Prod.fst
  reg.filter (fun p => p.1 ∉ defunctApps)

/-- Go `pruneStaleNotifications` declares no return values: what a caller
receives back is the empty tuple. -/
def pruneStaleNotificationsReturn (reg : Registry) (now : Int) : Unit :=
  let _ := pruneStaleNotifications reg now
  ()

/-- The number of registry entries the eviction pass removes (size before
minus size after); Go's code never computes or returns this quantity. -/
def pruneRemovedCount (reg : Registry) (now : Int) : Nat :=
  reg.length - (pruneStaleNotifications reg now).length

/-- Result of one `writeNotificationStatus` step: the updated server state,
how many file writes were attempted (0 or 1), and the returned `error`. -/
structure WriteStep where
  server : ArgosNotificationServer
  fileWrites : Nat
  err : Option String
deriving DecidableEq, Repr

/-- Go `writeNotificationStatus` (argos-server.go lines 167-179). The two
fallible file operations (`writeNotificationTempFile`, i.e. create+write of
the temp file, and `os.Rename`) are driven by the explicit outcome
parameters `tempErr` and `renameErr` (none = success). The skip branch
touches no file; otherwise the marker is set first, then the temp write and
the rename are attempted and the first failure is returned. -/
def writeNotificationStatus (s : ArgosNotificationServer)
    (tempErr renameErr : Option String) : WriteStep :=
  let notificationStatus := NotificationStatus s.notifications
  if notificationStatus = s.lastNotificationStatus then
    { server := s, fileWrites := 0, err := none }
  else
    let s1 := { s with lastNotificationStatus := notificationStatus }
    match tempErr with
    | some e => { server := s1, fileWrites := 1, err := some e }
    | none =>
      match renameErr with
      | some e => { server := s1, fileWrites := 1, err := some e }
      | none => { server := s1, fileWrites := 1, err := none }

/-- A JSON document, for modelling the request body fed to
`json.NewDecoder(r.Body).Decode`. -/
inductive Json where
  | null
  | bool (b : Bool)
  | num (n : Int)
  | str (s : String)
  | arr (elems : List Json)
  | obj (fields : List (String × Json))

/-- Member scan of a JSON object decoded into Go's
`struct { Label string `json:"label"` }`: members are processed in order,
a member whose name case-folds to "label" (encoding/json matches field
names case-insensitively) must carry a string (assigned, last one wins) or
null (ignored); any other value for it is an unmarshal type error; members
with other names are ignored. -/
def decodeLabelFields : List (String × Json) → String → Except String String
  | [], acc => .ok acc
  | (k, v) :: rest, acc =>
    if k.data.map Char.toLower = "label".data then
      match v with
      | Json.str s => decodeLabelFields rest s
      | Json.null => decodeLabelFields rest acc
      | _ => .error "cannot unmarshal value into field label of type string"
    else decodeLabelFields rest acc

/-- Decoding a JSON document into Go's `struct { Label string }`: `null`
leaves the zero value `""`, an object is scanned member by member, and any
other document shape is an unmarshal error. -/
def decodeLabel : Json → Except String String
  | Json.null => .ok ""
  | Json.obj fields => decodeLabelFields fields ""
  | _ => .error "cannot unmarshal value into struct"

/-- The whole body-decode step of `ServeHTTP` (argos-server.go line 120):
a body that is not a JSON document at all (none) is a decode error,
otherwise the document is unmarshalled into the label struct. -/
def decodeBody : Option Json → Except String String
  | none => .error "invalid JSON document"
  | some j => decodeLabel j

/-- Go `requestURLNotificationApp` (argos-server.go lines 130-135).
Go's `len(path)` counts UTF-8 bytes (`utf8ByteSize`);
`strings.HasPrefix(path, "/")` holds exactly when the first character is
'/'; and for such a path `path[1:]` drops exactly that one-byte character. -/
def requestURLNotificationApp (path : String) : Except String String :=
  if path.utf8ByteSize < 2 ∨ path.data.head? ≠ some '/' then .error "no slash prefix"
  else .ok (String.mk (path.data.drop 1))

/-- An inbound HTTP request, with the only parts of `*http.Request` the
handler can see: method, URL path and (already parsed) body. -/
structure HttpRequest where
  method : String
  path : String
  body : Option Json

/-- Go `ServeHTTP` (argos-server.go lines 109-128), as a function of the
registry: parse the path, decode the body, upsert and answer 200, or answer
400 leaving the registry alone. The result is the new registry and the
HTTP status code written. -/
def ServeHTTP (reg : Registry) (r : HttpRequest) (now : Int) : Registry × Nat :=
  match requestURLNotificationApp r.path with
  | .error _ => (reg, 400)
  | .ok notifyingApp =>
    match decodeBody r.body with
    | .error _ => (reg, 400)
    | .ok label => (updateArgosStatus reg notifyingApp label now, 200)

/-- The icon map as a partial map (presence view of `appDisplayIcons`),
used to state the spec's "iconMap[source] if present" clause. -/
def appDisplayIconsEntry (app : appname) : Option String :=
  if app = "mail.hobsons.com" then some "σ"
  else if app = "hobsons.slack.com" then some "@"
  else if app = "hangouts.google.com" then some "π"
  else none

/-! ### Order facts about the Go string comparison -/

theorem charListLe_total : ∀ a b, charListLe a b = true ∨ charListLe b a = true
  | [], _ => Or.inl rfl
  | _ :: _, [] => Or.inr rfl
  | a :: as, b :: bs => by
    by_cases hab : a < b
    · left; simp [charListLe, hab]
    · by_cases hba : b < a
      · right; simp [charListLe, hba, lt_asymm hba]
      · rcases charListLe_total as bs with h | h
        · left; simp [charListLe, hab, hba, h]
        · right; simp [charListLe, hab, hba, h]

theorem charListLe_trans : ∀ a b c, charListLe a b = true → charListLe b c = true →
    charListLe a c = true
  | [], _, _, _, _ => rfl
  | _ :: _, [], _, h, _ => by simp [charListLe] at h
  | _ :: _, _ :: _, [], _, h => by simp [charListLe] at h
  | a :: as, b :: bs, c :: cs, h1, h2 => by
    simp only [charListLe] at h1 h2 ⊢
    by_cases hab : a < b
    · by_cases hbc : b < c
      · simp [lt_trans hab hbc]
      · by_cases hcb : c < b
        · simp [hbc, hcb] at h2
        · have hbceq : b = c := le_antisymm (not_lt.1 hcb) (not_lt.1 hbc)
          simp [hbceq ▸ hab]
    · by_cases hba : b < a
      · simp [hab, hba] at h1
      · have hab' : a = b := le_antisymm (not_lt.1 hba) (not_lt.1 hab)
        subst hab'
        simp only [lt_irrefl, if_false, if_neg] at h1
        by_cases hac : a < c
        · simp [hac]
        · simp only [if_neg hac] at h2 ⊢
          by_cases hca : c < a
          · simp [hca] at h2
          · simp only [if_neg hca] at h2 ⊢
            exact charListLe_trans as bs cs (by simpa using h1) h2

theorem charListLe_antisymm : ∀ a b, charListLe a b = true → charListLe b a = true → a = b
  | [], [], _, _ => rfl
  | [], _ :: _, _, h => by simp [charListLe] at h
  | _ :: _, [], h, _ => by simp [charListLe] at h
  | a :: as, b :: bs, h1, h2 => by
    simp only [charListLe] at h1 h2
    by_cases hab : a < b
    · simp [lt_asymm hab, hab] at h2
    · by_cases hba : b < a
      · simp [hab, hba] at h1
      · have hab' : a = b := le_antisymm (not_lt.1 hba) (not_lt.1 hab)
        simp only [hab, hba, if_neg, if_false] at h1 h2
        have htl := charListLe_antisymm as bs (by simpa using h1) (by simpa using h2)
        rw [hab', htl]

instance strLeTotal : IsTotal String (fun a b => strLe a b = true) :=
  ⟨fun a b => charListLe_total a.data b.data⟩

instance strLeTrans : IsTrans String (fun a b => strLe a b = true) :=
  ⟨fun a b c => charListLe_trans a.data b.data c.data⟩

instance strLeAntisymm : IsAntisymm String (fun a b => strLe a b = true) :=
  ⟨fun a b h1 h2 => String.ext (charListLe_antisymm a.data b.data h1 h2)⟩

/-! ### Renderer lemmas -/

theorem sortStrings_sorted (l : List String) :
    List.Sorted (fun a b => strLe a b = true) (sortStrings l) :=
  List.sorted_insertionSort _ l

theorem sortStrings_perm (l : List String) : (sortStrings l).Perm l :=
  List.perm_insertionSort _ l

theorem sortStrings_eq_of_perm {l1 l2 : List String} (h : l1.Perm l2) :
    sortStrings l1 = sortStrings l2 :=
  List.eq_of_perm_of_sorted
    ((sortStrings_perm l1).trans (h.trans (sortStrings_perm l2).symm))
    (sortStrings_sorted l1) (sortStrings_sorted l2)

theorem visibleNotifications_perm {reg1 reg2 : Registry} (h : reg1.Perm reg2) :
    (visibleNotifications reg1).Perm (visibleNotifications reg2) :=
  (h.map _).filter _

theorem notificationDisplay_eq (app : appname) (n : notification) :
    notificationDisplay app n =
      if n.label = "" ∨ n.label = "0" then ""
      else if n.label = "1" then (appDisplayIconsEntry app).getD unknownAppIcon
      else (appDisplayIconsEntry app).getD unknownAppIcon ++ n.label := by
  unfold notificationDisplay
  by_cases h : n.label = "" ∨ n.label = "0"
  · rw [if_pos h, if_pos h]
  · rw [if_neg h, if_neg h]
    by_cases h1 : app = "mail.hobsons.com"
    · simp [appDisplayIcons, appDisplayIconsEntry, h1]
    · by_cases h2 : app = "hobsons.slack.com"
      · simp [appDisplayIcons, appDisplayIconsEntry, h1, h2]
      · by_cases h3 : app = "hangouts.google.com"
        · simp [appDisplayIcons, appDisplayIconsEntry, h1, h2, h3]
        · simp [appDisplayIcons, appDisplayIconsEntry, unknownAppIcon, h1, h2, h3]

/-- C1: for every source and record, the per-source display fragment is the
empty string when the label is "" or "0"; otherwise, with the icon taken from
the static icon map when the source is present and the unknown glyph "·"
otherwise, the fragment is the icon alone when the label is "1" and the icon
concatenated with the verbatim label for every other label. -/
theorem display_fragment_law (app : appname) (n : notification) :
    (n.label = "" ∨ n.label = "0" → notificationDisplay app n = "") ∧
    (¬(n.label = "" ∨ n.label = "0") →
      notificationDisplay app n =
        (if n.label = "1" then (appDisplayIconsEntry app).getD unknownAppIcon
         else (appDisplayIconsEntry app).getD unknownAppIcon ++ n.label)) := by
  constructor
  · intro h
    rw [notificationDisplay_eq, if_pos h]
  · intro h
    rw [notificationDisplay_eq, if_neg h]

/-- Witness for C1: an unmapped source with label "2" renders as the unknown
glyph followed by the label. -/
theorem display_fragment_law_witness :
    notificationDisplay "unknown.app" ⟨"2", 0⟩ = "·2" :=
  ((display_fragment_law "unknown.app" ⟨"2", 0⟩).2 (by decide)).trans (by decide)

/-- C2: NotificationStatus returns the space-joined, lexicographically sorted
list of the non-empty per-source fragments (the empty string when there are
none), and snapshots that are permutations of each other — i.e. the same
registry contents under different map iteration orders — render to
byte-identical strings. -/
theorem notification_status_deterministic (reg1 reg2 : Registry) (h : reg1.Perm reg2) :
    NotificationStatus reg1 = NotificationStatus reg2 ∧
    (∃ L : List String, List.Sorted (fun a b => strLe a b = true) L ∧
      L.Perm (visibleNotifications reg1) ∧ NotificationStatus reg1 = joinSpace L) ∧
    (visibleNotifications reg1 = [] → NotificationStatus reg1 = "") := by
  refine ⟨?_, ⟨sortStrings (visibleNotifications reg1), sortStrings_sorted _,
    sortStrings_perm _, rfl⟩, ?_⟩
  · unfold NotificationStatus
    rw [sortStrings_eq_of_perm (visibleNotifications_perm h)]
  · intro h0
    unfold NotificationStatus
    rw [h0]
    rfl

/-- Witness for C2: the spec's scenario 4 snapshot, in its two iteration
orders, renders identically, and to the concrete string "·5 σ2". -/
theorem notification_status_deterministic_witness :
    NotificationStatus [("unknown.app", ⟨"5", 0⟩), ("mail.hobsons.com", ⟨"2", 0⟩)] =
      NotificationStatus [("mail.hobsons.com", ⟨"2", 0⟩), ("unknown.app", ⟨"5", 0⟩)] ∧
    NotificationStatus [("unknown.app", ⟨"5", 0⟩), ("mail.hobsons.com", ⟨"2", 0⟩)] = "·5 σ2" :=
  ⟨(notification_status_deterministic _ _ (List.Perm.swap _ _ _)).1, by decide⟩

theorem prune_eq_filter (reg : Registry) (now : Int)
    (h : (reg.map Prod.fst).Nodup) :
    pruneStaleNotifications reg now =
      reg.filter (fun p => ¬(now - p.2.updatedAt > notificationMaxLifetime)) := by
  simp only [pruneStaleNotifications]
  refine List.filter_congr ?_
  intro p hp
  simp only [decide_eq_decide]
  refine not_congr ?_
  constructor
  · intro hmem
    rw [List.mem_map] at hmem
    obtain ⟨q, hq, hqx⟩ := hmem
    rw [List.mem_filter] at hq
    obtain ⟨hqreg, hstale⟩ := hq
    have hqp : q = p := List.inj_on_of_nodup_map h hqreg hp hqx
    subst hqp
    exact of_decide_eq_true hstale
  · intro hstale
    rw [List.mem_map]
    exact ⟨p, List.mem_filter.2 ⟨hp, decide_eq_true hstale⟩, rfl⟩

/-- C3: on a registry with distinct keys, the eviction pass removes exactly
the entries whose age strictly exceeds the 30-minute lifetime: an entry
survives iff it was present and its age is at most 30 minutes, it is kept
unchanged, and the surviving snapshot is a sublist of the original. -/
theorem eviction_exact (reg : Registry) (now : Int)
    (h : (reg.map Prod.fst).Nodup) (app : appname) (n : notification) :
    ((app, n) ∈ pruneStaleNotifications reg now ↔
      (app, n) ∈ reg ∧ now - n.updatedAt ≤ notificationMaxLifetime) ∧
    (pruneStaleNotifications reg now).Sublist reg := by
  constructor
  · rw [prune_eq_filter reg now h, List.mem_filter]
    simp [not_lt]
  · simp only [pruneStaleNotifications]
    exact List.filter_sublist _

/-- Witness for C3: at now = 30 min + 1 ns, an entry that is 1 ns too old is
evicted and an entry exactly 30 min old is kept. -/
theorem eviction_exact_witness :
    ("fresh.app", (⟨"2", 1⟩ : notification)) ∈
      pruneStaleNotifications
        [("old.app", ⟨"1", 0⟩), ("fresh.app", ⟨"2", 1⟩)] (notificationMaxLifetime + 1) ∧
    ("old.app", (⟨"1", 0⟩ : notification)) ∉
      pruneStaleNotifications
        [("old.app", ⟨"1", 0⟩), ("fresh.app", ⟨"2", 1⟩)] (notificationMaxLifetime + 1) := by
  constructor
  · exact (eviction_exact _ _ (by decide) "fresh.app" ⟨"2", 1⟩).1.mpr ⟨by decide, by decide⟩
  · intro hmem
    have hold := (eviction_exact _ _ (by decide) "old.app" ⟨"1", 0⟩).1.mp hmem
    exact absurd hold.2 (by decide)

/-! ### Publisher write-step lemmas -/

/-- C4: when the rendered status equals the last-written status the write step
performs no file write and leaves the whole server state unchanged, and two
consecutive write steps with no intervening registry change attempt at most
one file write between them. -/
theorem idempotent_publish (s : ArgosNotificationServer) (te1 re1 te2 re2 : Option String) :
    (NotificationStatus s.notifications = s.lastNotificationStatus →
      writeNotificationStatus s te1 re1 = ⟨s, 0, none⟩) ∧
    (writeNotificationStatus s te1 re1).fileWrites +
      (writeNotificationStatus (writeNotificationStatus s te1 re1).server te2 re2).fileWrites
        ≤ 1 := by
  constructor
  · intro h
    simp only [writeNotificationStatus]
    rw [if_pos h]
  · by_cases h : NotificationStatus s.notifications = s.lastNotificationStatus
    · simp [writeNotificationStatus, h]
    · simp only [writeNotificationStatus]
      rw [if_neg h]
      cases te1 <;> cases re1 <;> simp [writeNotificationStatus]

/-- Witness for C4: on a freshly-equal state (empty registry, last written
status "") the write step is a recorded no-op. -/
theorem idempotent_publish_witness :
    writeNotificationStatus ⟨"localhost", 18989, "home", "", []⟩ none none =
      ⟨⟨"localhost", 18989, "home", "", []⟩, 0, none⟩ :=
  (idempotent_publish ⟨"localhost", 18989, "home", "", []⟩ none none none none).1 (by decide)

theorem fragment_head (icon lbl : String) (c : Char) (cs : List Char)
    (hi : icon.data = c :: cs) :
    (if lbl = "1" then icon else icon ++ lbl).data.head? = some c := by
  by_cases hl : lbl = "1"
  · rw [if_pos hl, hi]; rfl
  · rw [if_neg hl, String.data_append, hi]; rfl

theorem icon_mem (app : appname) :
    (appDisplayIconsEntry app).getD unknownAppIcon ∈ (["σ", "@", "π", "·"] : List String) := by
  unfold appDisplayIconsEntry
  by_cases h1 : app = "mail.hobsons.com"
  · simp [h1]
  · by_cases h2 : app = "hobsons.slack.com"
    · simp [h1, h2]
    · by_cases h3 : app = "hangouts.google.com"
      · simp [h1, h2, h3]
      · simp [h1, h2, h3, unknownAppIcon]

theorem notificationDisplay_head (app : appname) (n : notification) :
    notificationDisplay app n = "" ∨
    ∃ c, c ∈ (['σ', '@', 'π', '·'] : List Char) ∧
      (notificationDisplay app n).data.head? = some c := by
  rw [notificationDisplay_eq]
  by_cases h : n.label = "" ∨ n.label = "0"
  · left; rw [if_pos h]
  · right
    rw [if_neg h]
    have hic := icon_mem app
    simp only [List.mem_cons, List.not_mem_nil, or_false] at hic
    rcases hic with hi | hi | hi | hi <;> rw [hi]
    · exact ⟨'σ', by decide, fragment_head "σ" n.label 'σ' [] (by decide)⟩
    · exact ⟨'@', by decide, fragment_head "@" n.label '@' [] (by decide)⟩
    · exact ⟨'π', by decide, fragment_head "π" n.label 'π' [] (by decide)⟩
    · exact ⟨'·', by decide, fragment_head "·" n.label '·' [] (by decide)⟩

theorem joinSpace_head (a : String) (rest : List String) (c : Char) (cs : List Char)
    (h : a.data = c :: cs) : (joinSpace (a :: rest)).data.head? = some c := by
  cases rest with
  | nil =>
    show a.data.head? = some c
    rw [h]
    rfl
  | cons b bs =>
    show ((a ++ " " ++ joinSpace (b :: bs))).data.head? = some c
    rw [String.data_append, String.data_append, h]
    rfl

theorem notification_status_head (reg : Registry) :
    NotificationStatus reg = "" ∨
    ∃ c, c ∈ (['σ', '@', 'π', '·'] : List Char) ∧
      (NotificationStatus reg).data.head? = some c := by
  unfold NotificationStatus
  cases hs : sortStrings (visibleNotifications reg) with
  | nil => left; rfl
  | cons a rest =>
    right
    have ha : a ∈ visibleNotifications reg := by
      have hmem : a ∈ sortStrings (visibleNotifications reg) := by
        rw [hs]; exact List.mem_cons_self a rest
      exact (sortStrings_perm _).mem_iff.mp hmem
    unfold visibleNotifications at ha
    rw [List.mem_filter] at ha
    obtain ⟨hamap, hane⟩ := ha
    rw [List.mem_map] at hamap
    obtain ⟨p, _, hpa⟩ := hamap
    rcases notificationDisplay_head p.1 p.2 with hnil | ⟨c, hcmem, hchead⟩
    · rw [hpa] at hnil
      rw [hnil] at hane
      simp at hane
    · rw [hpa] at hchead
      cases hdata : a.data with
      | nil => rw [hdata] at hchead; simp at hchead
      | cons d ds =>
        rw [hdata] at hchead
        have hdc : d = c := by simpa using hchead
        subst hdc
        exact ⟨d, hcmem, joinSpace_head a rest d ds hdata⟩

/-- C5: the sentinel "-" is never a renderable status — every non-empty
rendered status begins with an icon glyph and the empty registry renders as
"" — the init path plants exactly that sentinel, and a write step whose
last-written marker holds the sentinel always attempts a file write. -/
theorem sentinel_forces_first_write (s : ArgosNotificationServer) (te re : Option String)
    (h : s.lastNotificationStatus = impossibleNotificationStatus) :
    (∀ reg : Registry, NotificationStatus reg ≠ impossibleNotificationStatus) ∧
    NotificationStatus [] = "" ∧
    (∀ s0 s1, ArgosNotificationServer.serverInit s0 = .ok s1 →
      s1.lastNotificationStatus = impossibleNotificationStatus) ∧
    (writeNotificationStatus s te re).fileWrites = 1 := by
  have hne : ∀ reg : Registry, NotificationStatus reg ≠ impossibleNotificationStatus := by
    intro reg heq
    rcases notification_status_head reg with h0 | ⟨c, hcmem, hchead⟩
    · rw [h0] at heq
      exact absurd heq (by decide)
    · rw [heq] at hchead
      have : c = '-' := by simpa [impossibleNotificationStatus] using hchead.symm
      subst this
      simp at hcmem
  refine ⟨hne, rfl, ?_, ?_⟩
  · intro s0 s1 hinit
    unfold ArgosNotificationServer.serverInit at hinit
    split_ifs at hinit <;>
      (simp only [Except.ok.injEq] at hinit; rw [← hinit])
  · simp only [writeNotificationStatus]
    rw [if_neg (h ▸ hne s.notifications)]
    cases te <;> cases re <;> rfl

/-- Witness for C5: a server whose marker is the sentinel attempts the write
even with an empty registry, and a concrete status never equals "-". -/
theorem sentinel_forces_first_write_witness :
    (writeNotificationStatus ⟨"localhost", 18989, "home", "-", []⟩ none none).fileWrites = 1 ∧
    NotificationStatus [("x", ⟨"1", 0⟩)] ≠ impossibleNotificationStatus :=
  ⟨(sentinel_forces_first_write ⟨"localhost", 18989, "home", "-", []⟩ none none rfl).2.2.2,
   (sentinel_forces_first_write ⟨"localhost", 18989, "home", "-", []⟩ none none rfl).1
     [("x", ⟨"1", 0⟩)]⟩

/-- C6: when the rendered status differs from the last-written status, the
write step moves the marker to the new status before the file operations —
so even a failing write leaves the marker holding the new status, the failure
is returned to the caller as the step's error, and a later write step with
the registry unchanged performs no write at all (the failed write is not
retried until the rendered status changes again). -/
theorem failed_write_not_retried (s : ArgosNotificationServer)
    (h : NotificationStatus s.notifications ≠ s.lastNotificationStatus) :
    (∀ te re, (writeNotificationStatus s te re).server.lastNotificationStatus =
        NotificationStatus s.notifications ∧
      (writeNotificationStatus s te re).server.notifications = s.notifications) ∧
    (∀ e re, (writeNotificationStatus s (some e) re).err = some e) ∧
    (∀ e, (writeNotificationStatus s none (some e)).err = some e) ∧
    (∀ te re te2 re2,
      (writeNotificationStatus (writeNotificationStatus s te re).server te2 re2).fileWrites
        = 0) := by
  refine ⟨?_, ?_, ?_, ?_⟩
  · intro te re
    simp only [writeNotificationStatus]
    rw [if_neg h]
    cases te <;> cases re <;> simp
  · intro e re
    simp only [writeNotificationStatus]
    rw [if_neg h]
  · intro e
    simp only [writeNotificationStatus]
    rw [if_neg h]
  · intro te re te2 re2
    simp only [writeNotificationStatus]
    rw [if_neg h]
    cases te <;> cases re <;> simp

/-- Witness for C6: with one unmapped source at label "1" (status "·") and the
sentinel marker, a temp-file failure "disk full" is returned, the marker
nevertheless advances to "·", and the following write step writes nothing. -/
theorem failed_write_not_retried_witness :
    (writeNotificationStatus ⟨"localhost", 18989, "home", "-", [("x", ⟨"1", 0⟩)]⟩
        (some "disk full") none).err = some "disk full" ∧
    (writeNotificationStatus ⟨"localhost", 18989, "home", "-", [("x", ⟨"1", 0⟩)]⟩
        (some "disk full") none).server.lastNotificationStatus = "·" ∧
    (writeNotificationStatus
        (writeNotificationStatus ⟨"localhost", 18989, "home", "-", [("x", ⟨"1", 0⟩)]⟩
          (some "disk full") none).server none none).fileWrites = 0 := by
  have h := failed_write_not_retried ⟨"localhost", 18989, "home", "-", [("x", ⟨"1", 0⟩)]⟩
    (by decide)
  exact ⟨h.2.1 "disk full" none, ((h.1 (some "disk full") none).1).trans (by decide),
    h.2.2.2 (some "disk full") none none none⟩

/-! ### Ingress handler lemmas -/

/-- C7 counterexample: the body "\x7b\x7d" — a JSON object with no label
member at all — decodes into the zero-value struct, so the handler answers
200 and mutates the registry, where the claim demands a client error and no
state change. -/
theorem empty_object_body_accepted :
    (ServeHTTP [] ⟨"POST", "/app.example.com", some (Json.obj [])⟩ 0).2 = 200 ∧
    (ServeHTTP [] ⟨"POST", "/app.example.com", some (Json.obj [])⟩ 0).1 =
      [("app.example.com", ⟨"", 0⟩)] := by
  constructor <;> decide

/-- C7 amended: whenever the body fails to decode — it is not a JSON document,
or it is one the struct decode rejects (a document that is neither an object
nor null, or a label member that is neither a string nor null) — the handler
responds 400 and the registry is unchanged; but a decodable body with no
label member is accepted with the zero-value label "". -/
theorem undecodable_body_rejected (reg : Registry) (r : HttpRequest) (now : Int)
    (msg : String) (h : decodeBody r.body = .error msg) :
    ServeHTTP reg r now = (reg, 400) ∧ decodeBody (some (Json.obj [])) = .ok "" := by
  refine ⟨?_, rfl⟩
  unfold ServeHTTP
  cases hp : requestURLNotificationApp r.path with
  | error e => rfl
  | ok app => rw [h]

/-- Witness for C7 (amended): a body that is not a JSON document is rejected
with 400 and the registry keeps its single entry. -/
theorem undecodable_body_rejected_witness :
    ServeHTTP [("a", ⟨"2", 5⟩)] ⟨"POST", "/app.example.com", none⟩ 9 =
      ([("a", ⟨"2", 5⟩)], 400) :=
  (undecodable_body_rejected [("a", ⟨"2", 5⟩)] ⟨"POST", "/app.example.com", none⟩ 9
    "invalid JSON document" rfl).1

/-- C8 counterexample: the eviction pass returns the empty Go tuple (Unit),
so no reading of its returned value can recover the removed-entry count: a
call that removes one entry and a call that removes none return the same
value. -/
theorem prune_returns_no_count :
    ¬ ∃ f : Unit → Nat, ∀ (reg : Registry) (now : Int),
        f (pruneStaleNotificationsReturn reg now) = pruneRemovedCount reg now := by
  rintro ⟨f, hf⟩
  have h1 := hf [("a", ⟨"1", 0⟩)] (notificationMaxLifetime + 1)
  have h2 := hf [] 0
  rw [show pruneStaleNotificationsReturn [("a", ⟨"1", 0⟩)] (notificationMaxLifetime + 1)
      = () from rfl,
    show pruneRemovedCount [("a", ⟨"1", 0⟩)] (notificationMaxLifetime + 1) = 1 from by decide]
    at h1
  rw [show pruneStaleNotificationsReturn [] 0 = () from rfl,
    show pruneRemovedCount [] 0 = 0 from by decide] at h2
  rw [h1] at h2
  exact absurd h2 (by decide)

/-- C8 amended: the eviction pass returns no value; the number of entries it
removes — observable only as the drop in registry size — equals the number of
entries whose age strictly exceeds the maximum lifetime. -/
theorem prune_removed_count (reg : Registry) (now : Int)
    (h : (reg.map Prod.fst).Nodup) :
    pruneStaleNotificationsReturn reg now = () ∧
    pruneRemovedCount reg now =
      (reg.filter (fun p => now - p.2.updatedAt > notificationMaxLifetime)).length := by
  refine ⟨rfl, ?_⟩
  unfold pruneRemovedCount
  rw [prune_eq_filter reg now h]
  have hlen := @List.length_eq_length_filter_add (appname × notification) reg
    (fun p => decide (now - p.2.updatedAt > notificationMaxLifetime))
  simp only [decide_not]
  omega

/-- Witness for C8 (amended): with one entry 1 ns too old and one fresh, the
size drop is exactly 1. -/
theorem prune_removed_count_witness :
    pruneRemovedCount [("old.app", ⟨"1", 0⟩), ("fresh.app", ⟨"2", 1⟩)]
      (notificationMaxLifetime + 1) = 1 :=
  ((prune_removed_count [("old.app", ⟨"1", 0⟩), ("fresh.app", ⟨"2", 1⟩)]
    (notificationMaxLifetime + 1) (by decide)).2).trans (by decide)

/-- C9: the handler never inspects the HTTP method: any two methods give
identical outcomes on the same path and body, and any method with a
well-formed path and decodable body performs the upsert and answers 200,
exactly as a POST would. -/
theorem method_never_inspected (reg : Registry) (m1 m2 path : String)
    (body : Option Json) (now : Int) (app lbl : String)
    (hp : requestURLNotificationApp path = .ok app)
    (hb : decodeBody body = .ok lbl) :
    ServeHTTP reg ⟨m1, path, body⟩ now = ServeHTTP reg ⟨m2, path, body⟩ now ∧
    ServeHTTP reg ⟨m1, path, body⟩ now = (updateArgosStatus reg app lbl now, 200) := by
  refine ⟨rfl, ?_⟩
  simp only [ServeHTTP]
  rw [hp, hb]

/-- Witness for C9: a DELETE with a good path and body upserts and answers
200. -/
theorem method_never_inspected_witness :
    ServeHTTP [] ⟨"DELETE", "/mail.hobsons.com", some (Json.obj [("label", Json.str "3")])⟩ 7 =
      ([("mail.hobsons.com", ⟨"3", 7⟩)], 200) := by
  have h := method_never_inspected [] "DELETE" "GET" "/mail.hobsons.com"
    (some (Json.obj [("label", Json.str "3")])) 7 "mail.hobsons.com" "3" rfl rfl
  exact h.2.trans (by decide)

/-! ### Path parsing lemmas -/

theorem utf8ByteSize_eq (s : String) : s.utf8ByteSize = String.utf8ByteSize.go s.data := by
  cases s
  rfl

theorem utf8ByteSize_go_cons (c : Char) (cs : List Char) :
    String.utf8ByteSize.go (c :: cs) = String.utf8ByteSize.go cs + c.utf8Size := rfl

/-- C10: the path parser accepts every path of byte-length at least 2 that
begins with "/" — the source identifier being the entire remainder after the
leading slash, embedded slashes included — and rejects exactly "/" and the
paths not starting with "/". -/
theorem path_parsing (path rest : String) (hr : rest ≠ "") :
    requestURLNotificationApp ("/" ++ rest) = .ok rest ∧
    ((∃ msg, requestURLNotificationApp path = .error msg) ↔
      (path = "/" ∨ path.data.head? ≠ some '/')) ∧
    requestURLNotificationApp "/a/b" = .ok "a/b" := by
  refine ⟨?_, ⟨?_, ?_⟩, by rfl⟩
  · unfold requestURLNotificationApp
    have hdata : ("/" ++ rest).data = '/' :: rest.data := by
      rw [String.data_append]
      rfl
    have hcond : ¬(("/" ++ rest).utf8ByteSize < 2 ∨ ("/" ++ rest).data.head? ≠ some '/') := by
      push_neg
      constructor
      · rw [utf8ByteSize_eq, hdata]
        cases hrd : rest.data with
        | nil => exact absurd (String.ext (by rw [hrd])) hr
        | cons c cs =>
          rw [utf8ByteSize_go_cons, utf8ByteSize_go_cons]
          have hc := Char.utf8Size_pos c
          have hs : Char.utf8Size '/' = 1 := by decide
          omega
      · rw [hdata]
        rfl
    rw [if_neg hcond, hdata]
    show Except.ok (String.mk rest.data) = Except.ok rest
    cases rest
    rfl
  · rintro ⟨msg, hmsg⟩
    by_cases hcond : path.utf8ByteSize < 2 ∨ path.data.head? ≠ some '/'
    · rcases hcond with hsize | hhead
      · by_cases hh : path.data.head? = some '/'
        · left
          cases hd : path.data with
          | nil => rw [hd] at hh; simp at hh
          | cons c cs =>
            rw [hd] at hh
            have hc : c = '/' := by simpa using hh
            subst hc
            rw [utf8ByteSize_eq, hd, utf8ByteSize_go_cons] at hsize
            have hone : Char.utf8Size '/' = 1 := by decide
            have hcs : cs = [] := by
              cases cs with
              | nil => rfl
              | cons d ds =>
                rw [utf8ByteSize_go_cons] at hsize
                have := Char.utf8Size_pos d
                omega
            subst hcs
            exact String.ext (by rw [hd])
        · exact Or.inr hh
      · exact Or.inr hhead
    · unfold requestURLNotificationApp at hmsg
      rw [if_neg hcond] at hmsg
      cases hmsg
  · intro hc
    rcases hc with hc | hc
    · subst hc
      exact ⟨"no slash prefix", by rfl⟩
    · refine ⟨"no slash prefix", ?_⟩
      unfold requestURLNotificationApp
      rw [if_pos (Or.inr hc)]

/-- Witness for C10: "/a/b" maps to source "a/b" (embedded slash kept), and a
path with no leading slash is rejected. -/
theorem path_parsing_witness :
    requestURLNotificationApp ("/" ++ "a/b") = Except.ok "a/b" ∧
    ((∃ msg, requestURLNotificationApp "x" = Except.error msg) ↔
      (("x" : String) = "/" ∨ ("x" : String).data.head? ≠ some '/')) := by
  have h := path_parsing "x" "a/b" (by decide)
  exact ⟨h.1, h.2.1⟩

end ArgosRelay
